import Mathlib

set_option maxHeartbeats 1000000

namespace Blogs

/-- Mark kinds of the Content Schema: bold, italic, underline, link. -/
inductive MarkType where
  | bold
  | italic
  | underline
  | link
deriving DecidableEq

/-- Modelled from the spec: inline marks of the document model (the concrete mark
objects of the tiptap extensions StarterKit, Underline and Link are not under src/).
A link mark carries a target reference and an optional label. -/
inductive Mark where
  | bold
  | italic
  | underline
  | link (target : String) (label : Option String)
deriving DecidableEq

/-- The kind of a mark, forgetting its attributes. -/
def markKind : Mark → MarkType
  | .bold => .bold
  | .italic => .italic
  | .underline => .underline
  | .link _ _ => .link

/-- Modelled from the spec: a text run, inline text annotated with zero or more marks. -/
structure TextRun where
  text : String
  marks : List Mark
deriving DecidableEq

/-- Modelled from the spec: block-level nodes of the document model (paragraph,
heading, image, video embed, list); the tiptap node implementations are not under src/. -/
inductive Node where
  | paragraph (content : List TextRun)
  | heading (level : Nat) (content : List TextRun)
  | image (src : String) (alt : Option String)
  | embed (videoId : String)
  | bulletList (items : List (List TextRun))
deriving DecidableEq

/-- Modelled from the spec: a Document is an ordered tree of block nodes whose
inline content is text runs with marks. -/
abbrev Document := List Node

/-- The empty Document. -/
def emptyDocument : Document := []

/-- Modelled from the spec: the Content Schema constraint on a single node
(heading levels 1 to 6; the closed datatype already rules out block children
inside an image). -/
def validNode : Node → Bool
  | .heading level _ => decide (1 ≤ level) && decide (level ≤ 6)
  | _ => true

/-- Modelled from the spec: commands are pure descriptions of an edit
(insert node, delete node, toggle mark over a run, set image attributes). -/
inductive Command where
  | insertNode (pos : Nat) (node : Node)
  | deleteNode (pos : Nat)
  | toggleMark (nodeIdx runIdx : Nat) (m : Mark)
  | setImageAttrs (nodeIdx : Nat) (src : String) (alt : Option String)
deriving DecidableEq

/-- Toggle a mark on one text run. -/
def toggleMarkInRun (r : TextRun) (m : Mark) : TextRun :=
  if m ∈ r.marks then { r with marks := r.marks.erase m }
  else { r with marks := m :: r.marks }

/-- Toggle a mark on run `j` of an inline sequence; fails when the run does not exist. -/
def toggleMarkInRuns (rs : List TextRun) (j : Nat) (m : Mark) : Option (List TextRun) :=
  if j < rs.length then some (rs.set j (toggleMarkInRun (rs.getD j ⟨"", []⟩) m)) else none

/-- Toggle a mark inside a node; only nodes with inline content accept marks. -/
def toggleMarkInNode : Node → Nat → Mark → Option Node
  | .paragraph rs, j, m => (toggleMarkInRuns rs j m).map .paragraph
  | .heading level rs, j, m => (toggleMarkInRuns rs j m).map (.heading level)
  | _, _, _ => none

/-- Modelled from the spec: `applyCommand(document, command)` returns the new
document, or `none` for a SchemaViolation, leaving the document unchanged. -/
def applyCommand (d : Document) (c : Command) : Option Document :=
  match c with
  | .insertNode pos n =>
      if validNode n && decide (pos ≤ d.length) then some (d.take pos ++ n :: d.drop pos)
      else none
  | .deleteNode pos =>
      if pos < d.length then some (d.eraseIdx pos) else none
  | .toggleMark i j m =>
      match d[i]? with
      | some n => (toggleMarkInNode n j m).map (d.set i)
      | none => none
  | .setImageAttrs i src alt =>
      match d[i]? with
      | some (.image _ _) => some (d.set i (.image src alt))
      | _ => none

/-- Modelled from the spec: sequential application of a command chain; any
failing command makes the whole chain fail. -/
def applyChain : Document → List Command → Option Document
  | d, [] => some d
  | d, c :: cs =>
      match applyCommand d c with
      | some d2 => applyChain d2 cs
      | none => none

/-- Modelled from the spec: a chain is applied as one transaction; on failure the
prior Document version is preserved unchanged (all-or-nothing). -/
def applyTransaction (d : Document) (cs : List Command) : Document :=
  (applyChain d cs).getD d

/-- Documents reachable from the empty Document via valid Command Engine transactions. -/
inductive Reachable : Document → Prop where
  | empty : Reachable emptyDocument
  | step (d : Document) (cs : List Command) (d2 : Document) :
      Reachable d → applyChain d cs = some d2 → Reachable d2

/-- Unary encoding of a natural number, terminated by a semicolon. -/
def encNat (n : Nat) : List Char := List.replicate n '1' ++ [';']

/-- Length-prefixed encoding of a string. -/
def encStr (s : String) : List Char := encNat s.length ++ s.data

/-- Encoding of an optional string. -/
def encOptStr : Option String → List Char
  | none => ['n']
  | some s => 's' :: encStr s

/-- Encoding of a mark, preserving link target and label. -/
def encMark : Mark → List Char
  | .bold => ['b']
  | .italic => ['i']
  | .underline => ['u']
  | .link target label => 'l' :: (encStr target ++ encOptStr label)

/-- Encoding of a mark list, count-prefixed. -/
def encMarks (ms : List Mark) : List Char := encNat ms.length ++ (ms.map encMark).flatten

/-- Encoding of a text run. -/
def encRun (r : TextRun) : List Char := encStr r.text ++ encMarks r.marks

/-- Encoding of a run list, count-prefixed. -/
def encRuns (rs : List TextRun) : List Char := encNat rs.length ++ (rs.map encRun).flatten

/-- Encoding of a node, preserving embed attributes (video id, image src and alt). -/
def encNode : Node → List Char
  | .paragraph rs => 'p' :: encRuns rs
  | .heading level rs => 'h' :: (encNat level ++ encRuns rs)
  | .image src alt => 'g' :: (encStr src ++ encOptStr alt)
  | .embed videoId => 'y' :: encStr videoId
  | .bulletList items => 'B' :: (encNat items.length ++ (items.map encRuns).flatten)

/-- Encoding of a whole document. -/
def encDoc (d : Document) : List Char := encNat d.length ++ (d.map encNode).flatten

/-- Modelled from the spec: `getSerializedContent(document)`, the canonical
externally-consumable markup string (the code's `editor.getHTML()`; the tiptap
serializer is not under src/, and the exact markup grammar is delegated). -/
def getSerializedContent (d : Document) : String := String.mk (encDoc d)

/-- Decoder for the unary number encoding. -/
def parseNat : List Char → Option (Nat × List Char)
  | [] => none
  | c :: cs =>
      if c = ';' then some (0, cs)
      else if c = '1' then (parseNat cs).map (fun p => (p.1 + 1, p.2))
      else none

/-- Decoder for the length-prefixed string encoding. -/
def parseStr (cs : List Char) : Option (String × List Char) := do
  let (n, rest) ← parseNat cs
  if n ≤ rest.length then some (String.mk (rest.take n), rest.drop n) else none

/-- Decoder for the optional-string encoding. -/
def parseOptStr : List Char → Option (Option String × List Char)
  | 'n' :: rest => some (none, rest)
  | 's' :: rest => (parseStr rest).map (fun p => (some p.1, p.2))
  | _ => none

/-- Decoder for one mark. -/
def parseMark : List Char → Option (Mark × List Char)
  | 'b' :: rest => some (.bold, rest)
  | 'i' :: rest => some (.italic, rest)
  | 'u' :: rest => some (.underline, rest)
  | 'l' :: rest => do
      let (target, rest1) ← parseStr rest
      let (label, rest2) ← parseOptStr rest1
      some (.link target label, rest2)
  | _ => none

/-- Decoder for a counted sequence of marks. -/
def parseMarksN : Nat → List Char → Option (List Mark × List Char)
  | 0, cs => some ([], cs)
  | n + 1, cs => do
      let (m, rest1) ← parseMark cs
      let (ms, rest2) ← parseMarksN n rest1
      some (m :: ms, rest2)

/-- Decoder for a mark list. -/
def parseMarks (cs : List Char) : Option (List Mark × List Char) := do
  let (n, rest) ← parseNat cs
  parseMarksN n rest

/-- Decoder for one text run. -/
def parseRun (cs : List Char) : Option (TextRun × List Char) := do
  let (text, rest1) ← parseStr cs
  let (marks, rest2) ← parseMarks rest1
  some (⟨text, marks⟩, rest2)

/-- Decoder for a counted sequence of runs. -/
def parseRunsN : Nat → List Char → Option (List TextRun × List Char)
  | 0, cs => some ([], cs)
  | n + 1, cs => do
      let (r, rest1) ← parseRun cs
      let (rs, rest2) ← parseRunsN n rest1
      some (r :: rs, rest2)

/-- Decoder for a run list. -/
def parseRuns (cs : List Char) : Option (List TextRun × List Char) := do
  let (n, rest) ← parseNat cs
  parseRunsN n rest

/-- Decoder for a counted sequence of list items. -/
def parseItemsN : Nat → List Char → Option (List (List TextRun) × List Char)
  | 0, cs => some ([], cs)
  | n + 1, cs => do
      let (item, rest1) ← parseRuns cs
      let (items, rest2) ← parseItemsN n rest1
      some (item :: items, rest2)

/-- Decoder for one node. -/
def parseNode : List Char → Option (Node × List Char)
  | 'p' :: rest => (parseRuns rest).map (fun p => (.paragraph p.1, p.2))
  | 'h' :: rest => do
      let (level, rest1) ← parseNat rest
      let (rs, rest2) ← parseRuns rest1
      some (.heading level rs, rest2)
  | 'g' :: rest => do
      let (src, rest1) ← parseStr rest
      let (alt, rest2) ← parseOptStr rest1
      some (.image src alt, rest2)
  | 'y' :: rest => (parseStr rest).map (fun p => (.embed p.1, p.2))
  | 'B' :: rest => do
      let (n, rest1) ← parseNat rest
      let (items, rest2) ← parseItemsN n rest1
      some (.bulletList items, rest2)
  | _ => none

/-- Decoder for a counted sequence of nodes. -/
def parseNodesN : Nat → List Char → Option (List Node × List Char)
  | 0, cs => some ([], cs)
  | n + 1, cs => do
      let (nd, rest1) ← parseNode cs
      let (nds, rest2) ← parseNodesN n rest1
      some (nd :: nds, rest2)

/-- Decoder for a whole document. -/
def parseDocChars (cs : List Char) : Option (Document × List Char) := do
  let (n, rest) ← parseNat cs
  parseNodesN n rest

/-- Modelled from the spec: `setContent(serializedString)`, inverse of
`getSerializedContent` (the code's `editor.commands.setContent`; the tiptap
parser is not under src/). On malformed input the editor falls back to an
empty Document rather than crashing. -/
def setContent (serialized : String) : Document :=
  match parseDocChars serialized.data with
  | some (d, []) => d
  | _ => emptyDocument

/-- Flattened inline positions of one run: each character carries the run's marks. -/
def runMarks (r : TextRun) : List (List Mark) := List.replicate r.text.length r.marks

/-- Flattened inline positions of an inline sequence. -/
def inlineOfRuns (rs : List TextRun) : List (List Mark) := (rs.map runMarks).flatten

/-- Flattened inline positions contributed by one node. -/
def nodeInline : Node → List (List Mark)
  | .paragraph rs => inlineOfRuns rs
  | .heading _ rs => inlineOfRuns rs
  | .image _ _ => []
  | .embed _ => []
  | .bulletList items => (items.map inlineOfRuns).flatten

/-- Modelled from the spec: the flattened position space of a Document; position
`p` lies between character `p - 1` and character `p`. -/
def inlineMarks (d : Document) : List (List Mark) := (d.map nodeInline).flatten

/-- Length of the initial segment of characters all carrying mark `m`. -/
def runLen (m : Mark) : List (List Mark) → Nat
  | [] => 0
  | ms :: rest => if m ∈ ms then runLen m rest + 1 else 0

/-- Start index of the maximal block of characters carrying `m` that ends just
below index `k` (scanning leftwards from character `k - 1`). -/
def extendLeft (cs : List (List Mark)) (m : Mark) : Nat → Nat
  | 0 => 0
  | k + 1 => if m ∈ cs.getD k [] then extendLeft cs m k else k + 1

/-- Whether a mark has the requested kind and also covers the character at `pos`. -/
def markMatches (d : Document) (pos : Nat) (mt : MarkType) (m : Mark) : Bool :=
  decide (markKind m = mt) && decide (m ∈ (inlineMarks d).getD pos [])

/-- Modelled from the spec: `resolveMarkRange(document, position, markType)`
(the code's `getMarkRange(state.doc.resolve(pos), state.schema.marks.link)`;
the tiptap helper is not under src/). A position at a mark boundary is outside
(exclusive on both ends); otherwise the maximal uniform range is returned. -/
def resolveMarkRange (d : Document) (pos : Nat) (mt : MarkType) : Option (Nat × Nat) :=
  if pos = 0 then none
  else
    (((inlineMarks d).getD (pos - 1) []).find? (markMatches d pos mt)).map
      (fun m => (extendLeft (inlineMarks d) m (pos - 1),
        pos + runLen m ((inlineMarks d).drop pos)))

/-- Asset of the remote gallery, as cached by the editor (src line 39:
`useState<\x7b src: string \x7d[]>`). -/
structure Image where
  src : String
deriving DecidableEq

/-- SEO metadata record exchanged with the SEO sub-form (src/SEOForm `SeoResult`). -/
structure SeoResult where
  meta : String
  slug : String
  tags : String
deriving DecidableEq

/-- A thumbnail is either a locally chosen not-yet-uploaded file or a remote
asset reference (src `thumbnail?: File | string`); a local file is modelled by
its opaque name. -/
inductive Thumbnail where
  | localFile (name : String)
  | remote (url : String)
deriving DecidableEq

/-- The Post Draft aggregate (src `interface FinalPost extends SeoResult`). -/
structure FinalPost extends SeoResult where
  title : String
  content : String
  thumbnail : Option Thumbnail := none
deriving DecidableEq

/-- Result of choosing an image in the gallery modal (src `ImageSelectionResult`). -/
structure ImageSelectionResult where
  src : String
  altText : Option String
deriving DecidableEq

/-- Errors of the Asset Coordinator: failure of the gallery list fetch or of an upload. -/
inductive AssetError where
  | listError
  | uploadError
deriving DecidableEq

/-- State of the Editor component (src lines 36-47): the `useState` slices plus
the live tiptap document, `none` until `useEditor` has initialized it. -/
structure EditorState where
  selectionRange : Option (Nat × Nat)
  showGallery : Bool
  uploading : Bool
  images : List Image
  seoInitialValue : Option SeoResult
  post : FinalPost
  editor : Option Document
deriving DecidableEq

/-- Initial state of the Editor component: the `useState` defaults of src lines 36-47. -/
def initialEditorState : EditorState :=
  { selectionRange := none
    showGallery := false
    uploading := false
    images := []
    seoInitialValue := none
    post := { title := "", content := "", meta := "", tags := "", slug := "", thumbnail := none }
    editor := none }

/-- Embeds src `fetchImages` (lines 49-52): `axios.get` then `setImages(data.images)`.
The remote response is passed explicitly; `none` models a failed request, which
skips `setImages` and surfaces the rejection. -/
def fetchImages (s : EditorState) (response : Option (List Image)) :
    EditorState × Option AssetError :=
  match response with
  | some imgs => ({ s with images := imgs }, none)
  | none => (s, some AssetError.listError)

/-- Embeds src `handleImageUpload` (lines 54-61): `setUploading(true)`, then
`axios.post`; on success `setUploading(false)` and `setImages([data, ...images])`.
A failed POST (`none`) rejects after `setUploading(true)`, so the remaining two
state updates are skipped. -/
def handleImageUpload (s : EditorState) (response : Option Image) :
    EditorState × Option AssetError :=
  match response with
  | some data => ({ s with uploading := false, images := data :: s.images }, none)
  | none => ({ s with uploading := true }, some AssetError.uploadError)

/-- Embeds src `updateTitle` (line 63): `setPost(\x7b ...post, title: target.value \x7d)`. -/
def updateTitle (s : EditorState) (value : String) : EditorState :=
  { s with post := { s.post with title := value } }

/-- Embeds src `updateSeoValue` (line 66): `setPost(\x7b ...post, ...result \x7d)`. -/
def updateSeoValue (s : EditorState) (result : SeoResult) : EditorState :=
  { s with post := { s.post with meta := result.meta, slug := result.slug, tags := result.tags } }

/-- Embeds src `updateThumbnail` (line 68): `setPost(\x7b ...post, thumbnail: file \x7d)`. -/
def updateThumbnail (s : EditorState) (file : String) : EditorState :=
  { s with post := { s.post with thumbnail := some (Thumbnail.localFile file) } }

/-- Embeds src `handleImageSelect` (lines 70-76): one chained transaction
inserting an image node carrying the selected asset; the current selection is
modelled as the end of the document. -/
def handleImageSelect (s : EditorState) (result : ImageSelectionResult) : EditorState :=
  { s with
      editor := s.editor.map (fun d =>
        applyTransaction d [Command.insertNode d.length (Node.image result.src result.altText)]) }

/-- Embeds src `handleSubmit` (lines 78-81): `if (!editor) return;` then
`onSubmit(\x7b ...post, content: editor.getHTML() \x7d)`; the submitted draft is
returned, `none` when submission was skipped. -/
def handleSubmit (s : EditorState) : Option FinalPost :=
  match s.editor with
  | none => none
  | some d => some { s.post with content := getSerializedContent d }

/-- Embeds the hydration effect of src lines 137-145: `setPost(\x7b ...initialValue \x7d)`,
`editor?.commands.setContent(initialValue.content)`, and
`setSeoInitialValue(\x7b meta, slug, tags \x7d)`. -/
def hydrate (s : EditorState) (initialValue : FinalPost) : EditorState :=
  { s with
      post := initialValue
      editor := s.editor.map (fun _ => setContent initialValue.content)
      seoInitialValue := some initialValue.toSeoResult }

theorem string_mk_data (s : String) : String.mk s.data = s := rfl

theorem parseNat_enc (n : Nat) (rest : List Char) :
    parseNat (encNat n ++ rest) = some (n, rest) := by
  induction n with
  | zero => rfl
  | succ k ih =>
      have h : encNat (k + 1) ++ rest = '1' :: (encNat k ++ rest) := by
        simp [encNat, List.replicate_succ]
      rw [h]
      simp [parseNat, ih]

theorem parseStr_enc (s : String) (rest : List Char) :
    parseStr (encStr s ++ rest) = some (s, rest) := by
  have h : encStr s ++ rest = encNat s.length ++ (s.data ++ rest) := by
    simp [encStr, List.append_assoc]
  rw [parseStr, h, parseNat_enc]
  show (if s.length ≤ (s.data ++ rest).length then
      some (String.mk ((s.data ++ rest).take s.length), (s.data ++ rest).drop s.length)
    else none) = some (s, rest)
  have hle : s.length ≤ (s.data ++ rest).length := by
    rw [List.length_append]
    exact Nat.le_add_right _ _
  rw [if_pos hle, @List.take_left' Char s.data rest s.length rfl,
    @List.drop_left' Char s.data rest s.length rfl, string_mk_data]

theorem parseOptStr_enc (o : Option String) (rest : List Char) :
    parseOptStr (encOptStr o ++ rest) = some (o, rest) := by
  cases o with
  | none => rfl
  | some s =>
      have h : encOptStr (some s) ++ rest = 's' :: (encStr s ++ rest) := by
        simp [encOptStr]
      rw [h]
      simp [parseOptStr, parseStr_enc]

theorem parseMark_enc (m : Mark) (rest : List Char) :
    parseMark (encMark m ++ rest) = some (m, rest) := by
  cases m with
  | bold => rfl
  | italic => rfl
  | underline => rfl
  | link target label =>
      have h : encMark (.link target label) ++ rest
          = 'l' :: (encStr target ++ (encOptStr label ++ rest)) := by
        simp [encMark, List.append_assoc]
      rw [h]
      simp [parseMark, parseStr_enc, parseOptStr_enc]

theorem parseMarksN_enc (ms : List Mark) (rest : List Char) :
    parseMarksN ms.length ((ms.map encMark).flatten ++ rest) = some (ms, rest) := by
  induction ms with
  | nil => rfl
  | cons m tail ih =>
      have h : ((m :: tail).map encMark).flatten ++ rest
          = encMark m ++ ((tail.map encMark).flatten ++ rest) := by
        simp [List.append_assoc]
      rw [List.length_cons, h]
      simp [parseMarksN, parseMark_enc, ih]

theorem parseMarks_enc (ms : List Mark) (rest : List Char) :
    parseMarks (encMarks ms ++ rest) = some (ms, rest) := by
  have h : encMarks ms ++ rest = encNat ms.length ++ ((ms.map encMark).flatten ++ rest) := by
    simp [encMarks, List.append_assoc]
  rw [parseMarks, h, parseNat_enc]
  simp [parseMarksN_enc]

theorem parseRun_enc (r : TextRun) (rest : List Char) :
    parseRun (encRun r ++ rest) = some (r, rest) := by
  have h : encRun r ++ rest = encStr r.text ++ (encMarks r.marks ++ rest) := by
    simp [encRun, List.append_assoc]
  rw [parseRun, h, parseStr_enc]
  simp [parseMarks_enc]

theorem parseRunsN_enc (rs : List TextRun) (rest : List Char) :
    parseRunsN rs.length ((rs.map encRun).flatten ++ rest) = some (rs, rest) := by
  induction rs with
  | nil => rfl
  | cons r tail ih =>
      have h : ((r :: tail).map encRun).flatten ++ rest
          = encRun r ++ ((tail.map encRun).flatten ++ rest) := by
        simp [List.append_assoc]
      rw [List.length_cons, h]
      simp [parseRunsN, parseRun_enc, ih]

theorem parseRuns_enc (rs : List TextRun) (rest : List Char) :
    parseRuns (encRuns rs ++ rest) = some (rs, rest) := by
  have h : encRuns rs ++ rest = encNat rs.length ++ ((rs.map encRun).flatten ++ rest) := by
    simp [encRuns, List.append_assoc]
  rw [parseRuns, h, parseNat_enc]
  simp [parseRunsN_enc]

theorem parseItemsN_enc (items : List (List TextRun)) (rest : List Char) :
    parseItemsN items.length ((items.map encRuns).flatten ++ rest) = some (items, rest) := by
  induction items with
  | nil => rfl
  | cons item tail ih =>
      have h : ((item :: tail).map encRuns).flatten ++ rest
          = encRuns item ++ ((tail.map encRuns).flatten ++ rest) := by
        simp [List.append_assoc]
      rw [List.length_cons, h]
      simp [parseItemsN, parseRuns_enc, ih]

theorem parseNode_enc (n : Node) (rest : List Char) :
    parseNode (encNode n ++ rest) = some (n, rest) := by
  cases n with
  | paragraph rs =>
      have h : encNode (.paragraph rs) ++ rest = 'p' :: (encRuns rs ++ rest) := by
        simp [encNode]
      rw [h]
      simp [parseNode, parseRuns_enc]
  | heading level rs =>
      have h : encNode (.heading level rs) ++ rest
          = 'h' :: (encNat level ++ (encRuns rs ++ rest)) := by
        simp [encNode, List.append_assoc]
      rw [h]
      simp [parseNode, parseNat_enc, parseRuns_enc]
  | image src alt =>
      have h : encNode (.image src alt) ++ rest
          = 'g' :: (encStr src ++ (encOptStr alt ++ rest)) := by
        simp [encNode, List.append_assoc]
      rw [h]
      simp [parseNode, parseStr_enc, parseOptStr_enc]
  | embed videoId =>
      have h : encNode (.embed videoId) ++ rest = 'y' :: (encStr videoId ++ rest) := by
        simp [encNode]
      rw [h]
      simp [parseNode, parseStr_enc]
  | bulletList items =>
      have h : encNode (.bulletList items) ++ rest
          = 'B' :: (encNat items.length ++ ((items.map encRuns).flatten ++ rest)) := by
        simp [encNode, List.append_assoc]
      rw [h]
      simp [parseNode, parseNat_enc, parseItemsN_enc]

theorem parseNodesN_enc (ns : List Node) (rest : List Char) :
    parseNodesN ns.length ((ns.map encNode).flatten ++ rest) = some (ns, rest) := by
  induction ns with
  | nil => rfl
  | cons n tail ih =>
      have h : ((n :: tail).map encNode).flatten ++ rest
          = encNode n ++ ((tail.map encNode).flatten ++ rest) := by
        simp [List.append_assoc]
      rw [List.length_cons, h]
      simp [parseNodesN, parseNode_enc, ih]

theorem parseDocChars_enc (d : Document) (rest : List Char) :
    parseDocChars (encDoc d ++ rest) = some (d, rest) := by
  have h : encDoc d ++ rest = encNat d.length ++ ((d.map encNode).flatten ++ rest) := by
    simp [encDoc, List.append_assoc]
  rw [parseDocChars, h, parseNat_enc]
  simp [parseNodesN_enc]

theorem setContent_getSerializedContent (d : Document) :
    setContent (getSerializedContent d) = d := by
  have h : parseDocChars (encDoc d) = some (d, []) := by
    have h2 := parseDocChars_enc d []
    simpa using h2
  simp [setContent, getSerializedContent, h]

theorem runLen_le (m : Mark) (l : List (List Mark)) : runLen m l ≤ l.length := by
  induction l with
  | nil => simp [runLen]
  | cons ms rest ih =>
      by_cases h : m ∈ ms
      · simp only [runLen, if_pos h, List.length_cons]
        omega
      · simp [runLen, h]

theorem runLen_mem (m : Mark) (l : List (List Mark)) (i : Nat) (h : i < runLen m l) :
    m ∈ l.getD i [] := by
  induction l generalizing i with
  | nil => simp [runLen] at h
  | cons ms rest ih =>
      by_cases hm : m ∈ ms
      · cases i with
        | zero => simpa using hm
        | succ j =>
            simp only [runLen, if_pos hm] at h
            simpa using ih j (by omega)
      · simp [runLen, hm] at h

theorem runLen_stop (m : Mark) (l : List (List Mark)) (h : runLen m l < l.length) :
    m ∉ l.getD (runLen m l) [] := by
  induction l with
  | nil => simp at h
  | cons ms rest ih =>
      by_cases hm : m ∈ ms
      · simp only [runLen, if_pos hm, List.length_cons] at h ⊢
        simpa using ih (by omega)
      · simp [runLen, hm]

theorem extendLeft_le (cs : List (List Mark)) (m : Mark) (k : Nat) :
    extendLeft cs m k ≤ k := by
  induction k with
  | zero => simp [extendLeft]
  | succ i ih =>
      by_cases h : m ∈ cs.getD i []
      · rw [extendLeft, if_pos h]
        omega
      · rw [extendLeft, if_neg h]

theorem extendLeft_mem (cs : List (List Mark)) (m : Mark) (k : Nat) :
    ∀ j, extendLeft cs m k ≤ j → j < k → m ∈ cs.getD j [] := by
  induction k with
  | zero => intro j h1 h2; omega
  | succ i ih =>
      intro j h1 h2
      by_cases hm : m ∈ cs.getD i []
      · rw [extendLeft, if_pos hm] at h1
        rcases Nat.lt_succ_iff_lt_or_eq.mp h2 with h | h
        · exact ih j h1 h
        · subst h; exact hm
      · rw [extendLeft, if_neg hm] at h1
        omega

theorem extendLeft_boundary (cs : List (List Mark)) (m : Mark) (k : Nat) :
    extendLeft cs m k = 0 ∨ m ∉ cs.getD (extendLeft cs m k - 1) [] := by
  induction k with
  | zero => left; rfl
  | succ i ih =>
      by_cases hm : m ∈ cs.getD i []
      · rw [extendLeft, if_pos hm]
        exact ih
      · rw [extendLeft, if_neg hm]
        right
        simpa using hm

theorem lt_length_of_mem_getD (l : List (List Mark)) (i : Nat) (m : Mark)
    (h : m ∈ l.getD i []) : i < l.length := by
  by_contra hc
  push_neg at hc
  rw [List.getD_eq_default l [] hc] at h
  exact absurd h (List.not_mem_nil m)

theorem getD_drop_eq (l : List (List Mark)) (i j : Nat) :
    (l.drop i).getD j [] = l.getD (i + j) [] := by
  simp [List.getD_eq_getElem?_getD, List.getElem?_drop]

/-- C3: for every Document, position and mark type, `resolveMarkRange` returns
`none` exactly when the position is not strictly inside a region carrying the
mark type (a position at a mark boundary counts as outside, exclusive on both
ends), and otherwise returns the maximal range over which an equivalent mark of
that type with the same attributes is uniform. -/
theorem resolveMarkRange_spec (d : Document) (pos : Nat) (mt : MarkType) :
    (resolveMarkRange d pos mt = none ↔
      ¬(1 ≤ pos ∧ ∃ m ∈ (inlineMarks d).getD (pos - 1) [],
          markKind m = mt ∧ m ∈ (inlineMarks d).getD pos [])) ∧
    (∀ lo hi, resolveMarkRange d pos mt = some (lo, hi) →
      ∃ m, markKind m = mt ∧ lo ≤ pos - 1 ∧ pos ≤ hi ∧ hi ≤ (inlineMarks d).length ∧
        (∀ i, lo ≤ i → i < hi → m ∈ (inlineMarks d).getD i []) ∧
        (lo = 0 ∨ m ∉ (inlineMarks d).getD (lo - 1) []) ∧
        (hi = (inlineMarks d).length ∨ m ∉ (inlineMarks d).getD hi [])) := by
  by_cases hpos : pos = 0
  · subst hpos
    refine ⟨⟨fun _ hc => absurd hc.1 (by omega), fun _ => by simp [resolveMarkRange]⟩, ?_⟩
    intro lo hi h
    simp [resolveMarkRange] at h
  · rcases hfind : ((inlineMarks d).getD (pos - 1) []).find? (markMatches d pos mt) with _ | m
    · have hres : resolveMarkRange d pos mt = none := by
        rw [resolveMarkRange, if_neg hpos, hfind]
        rfl
      refine ⟨⟨fun _ hc => ?_, fun _ => hres⟩, ?_⟩
      · obtain ⟨h1, m, hm, hkind, hmem⟩ := hc
        have h2 := List.find?_eq_none.mp hfind m hm
        simp only [markMatches, Bool.and_eq_true, decide_eq_true_eq] at h2
        exact h2 ⟨hkind, hmem⟩
      · intro lo hi h
        rw [hres] at h
        exact absurd h (by simp)
    · have hres : resolveMarkRange d pos mt
          = some (extendLeft (inlineMarks d) m (pos - 1),
              pos + runLen m ((inlineMarks d).drop pos)) := by
        rw [resolveMarkRange, if_neg hpos, hfind]
        rfl
      have hp := List.find?_some hfind
      simp only [markMatches, Bool.and_eq_true, decide_eq_true_eq] at hp
      obtain ⟨hkind, hmem2⟩ := hp
      have hmem1 := List.mem_of_find?_eq_some hfind
      have hplen : pos < (inlineMarks d).length :=
        lt_length_of_mem_getD (inlineMarks d) pos m hmem2
      constructor
      · rw [hres]
        constructor
        · intro h
          exact absurd h (by simp)
        · intro hneg
          exact absurd ⟨by omega, m, hmem1, hkind, hmem2⟩ hneg
      · intro lo hi h
        rw [hres] at h
        simp only [Option.some.injEq, Prod.mk.injEq] at h
        obtain ⟨hlo, hhi⟩ := h
        subst hlo
        subst hhi
        refine ⟨m, hkind, extendLeft_le _ _ _, Nat.le_add_right _ _, ?_, ?_, ?_, ?_⟩
        · have hr := runLen_le m ((inlineMarks d).drop pos)
          rw [List.length_drop] at hr
          omega
        · intro i hi1 hi2
          by_cases hc1 : i < pos
          · rcases Nat.lt_or_ge i (pos - 1) with h | h
            · exact extendLeft_mem (inlineMarks d) m (pos - 1) i hi1 h
            · have hieq : i = pos - 1 := by omega
              rw [hieq]
              exact hmem1
          · push_neg at hc1
            have h3 : i - pos < runLen m ((inlineMarks d).drop pos) := by omega
            have h4 := runLen_mem m ((inlineMarks d).drop pos) (i - pos) h3
            rw [getD_drop_eq] at h4
            have hieq : pos + (i - pos) = i := by omega
            rwa [hieq] at h4
        · exact extendLeft_boundary (inlineMarks d) m (pos - 1)
        · rcases Nat.lt_or_ge (runLen m ((inlineMarks d).drop pos))
              ((inlineMarks d).drop pos).length with h | h
          · right
            have h5 := runLen_stop m ((inlineMarks d).drop pos) h
            rwa [getD_drop_eq] at h5
          · left
            have hr := runLen_le m ((inlineMarks d).drop pos)
            have heq := Nat.le_antisymm hr h
            rw [List.length_drop] at heq
            omega

/-- C1: for every Document reachable from the empty Document via valid Command
Engine transactions, serializing it and re-parsing the result is lossless:
`setContent (getSerializedContent d) = d`, preserving the node and mark tree
with embed attributes and link target and label. -/
theorem roundTrip_law (d : Document) (_reach : Reachable d) :
    setContent (getSerializedContent d) = d :=
  setContent_getSerializedContent d

/-- Witness for C1 at a concrete reachable one-paragraph document. -/
theorem roundTrip_law_witness :
    Reachable [Node.paragraph [⟨"Hello", [Mark.bold]⟩]] ∧
    setContent (getSerializedContent [Node.paragraph [⟨"Hello", [Mark.bold]⟩]])
      = [Node.paragraph [⟨"Hello", [Mark.bold]⟩]] := by
  have hr : Reachable [Node.paragraph [⟨"Hello", [Mark.bold]⟩]] :=
    Reachable.step emptyDocument
      [Command.insertNode 0 (Node.paragraph [⟨"Hello", [Mark.bold]⟩])]
      [Node.paragraph [⟨"Hello", [Mark.bold]⟩]] Reachable.empty (by rfl)
  exact ⟨hr, roundTrip_law _ hr⟩

/-- C2: a chained command sequence is all-or-nothing: if the chain fails
(some command would violate the schema), the transaction leaves the Document
with a byte-for-byte identical serialized form, and if every command succeeds
exactly the one new Document version is produced. -/
theorem chain_atomicity (d : Document) (cmds : List Command) :
    (applyChain d cmds = none →
      getSerializedContent (applyTransaction d cmds) = getSerializedContent d) ∧
    (∀ d2, applyChain d cmds = some d2 → applyTransaction d cmds = d2) := by
  constructor
  · intro h
    rw [applyTransaction, h]
    rfl
  · intro d2 h
    rw [applyTransaction, h]
    rfl

/-- Witness for C2: a chain whose second command violates the schema leaves the
serialized document unchanged, and a succeeding chain produces the new version. -/
theorem chain_atomicity_witness :
    getSerializedContent (applyTransaction emptyDocument
        [Command.insertNode 0 (Node.paragraph [⟨"a", []⟩]),
         Command.insertNode 0 (Node.heading 7 [])])
      = getSerializedContent emptyDocument ∧
    applyTransaction emptyDocument [Command.insertNode 0 (Node.embed "vid")]
      = [Node.embed "vid"] :=
  ⟨(chain_atomicity emptyDocument
      [Command.insertNode 0 (Node.paragraph [⟨"a", []⟩]),
       Command.insertNode 0 (Node.heading 7 [])]).1 (by rfl),
   (chain_atomicity emptyDocument [Command.insertNode 0 (Node.embed "vid")]).2
      [Node.embed "vid"] (by rfl)⟩

/-- Document with a link mark spanning exactly the character range [3,7). -/
def linkDoc : Document :=
  [Node.paragraph [⟨"abc", []⟩, ⟨"defg", [Mark.link "https://example.com" none]⟩,
    ⟨"hij", []⟩]]

/-- Witness for C3 at the spec scenario: a link spanning positions [3,7)
resolves to none at 3, to exactly (3,7) at 5, and to none at 7. -/
theorem resolveMarkRange_spec_witness :
    resolveMarkRange linkDoc 3 MarkType.link = none ∧
    resolveMarkRange linkDoc 5 MarkType.link = some (3, 7) ∧
    resolveMarkRange linkDoc 7 MarkType.link = none ∧
    (∃ m, markKind m = MarkType.link ∧ 3 ≤ 5 - 1 ∧ 5 ≤ 7 ∧
      7 ≤ (inlineMarks linkDoc).length ∧
      (∀ i, 3 ≤ i → i < 7 → m ∈ (inlineMarks linkDoc).getD i []) ∧
      (3 = 0 ∨ m ∉ (inlineMarks linkDoc).getD (3 - 1) []) ∧
      (7 = (inlineMarks linkDoc).length ∨ m ∉ (inlineMarks linkDoc).getD 7 [])) :=
  ⟨(resolveMarkRange_spec linkDoc 3 MarkType.link).1.mpr (by decide),
   by decide,
   (resolveMarkRange_spec linkDoc 7 MarkType.link).1.mpr (by decide),
   (resolveMarkRange_spec linkDoc 5 MarkType.link).2 3 7 (by decide)⟩

/-- C4: successful uploads prepend to the cached asset list in most-recent-first
order, leaving the previously cached assets unchanged and in their prior order. -/
theorem uploadAsset_prepend (s : EditorState) (a b : Image) :
    ((handleImageUpload (handleImageUpload s (some a)).1 (some b)).1).images
      = b :: a :: s.images := rfl

/-- C5: a failed upload surfaces AssetUploadError and leaves the cached asset
list, the post draft, the live document and every other state slice unchanged. -/
theorem uploadAsset_failure_isolated (s : EditorState) :
    (handleImageUpload s none).2 = some AssetError.uploadError ∧
    (handleImageUpload s none).1.images = s.images ∧
    (handleImageUpload s none).1.post = s.post ∧
    (handleImageUpload s none).1.editor = s.editor ∧
    (handleImageUpload s none).1.selectionRange = s.selectionRange ∧
    (handleImageUpload s none).1.seoInitialValue = s.seoInitialValue ∧
    (handleImageUpload s none).1.showGallery = s.showGallery :=
  ⟨rfl, rfl, rfl, rfl, rfl, rfl, rfl⟩

/-- C6: hydrating from a saved post seeds the draft fields and the Document via
setContent, and the subsequent submit reproduces the saved title, meta, slug,
tags and thumbnail with a freshly serialized content string identical to the
saved engine-producible content. -/
theorem hydrate_finalize (s : EditorState) (ed d : Document) (p : FinalPost)
    (he : s.editor = some ed) (hc : p.content = getSerializedContent d) :
    handleSubmit (hydrate s p) = some p := by
  have h1 : (hydrate s p).editor = some (setContent p.content) := by
    show s.editor.map (fun _ => setContent p.content) = some (setContent p.content)
    rw [he]
    rfl
  rw [handleSubmit, h1]
  show some { (hydrate s p).post with content := getSerializedContent (setContent p.content) }
      = some p
  have h3 : (hydrate s p).post = p := rfl
  rw [h3, hc, setContent_getSerializedContent, ← hc]

/-- Witness for C6 at the spec scenario values. -/
theorem hydrate_finalize_witness :
    handleSubmit (hydrate { initialEditorState with editor := some emptyDocument }
        { title := "Hi", content := getSerializedContent [Node.paragraph [⟨"Hello", []⟩]],
          meta := "m", slug := "s", tags := "t", thumbnail := none })
      = some { title := "Hi",
               content := getSerializedContent [Node.paragraph [⟨"Hello", []⟩]],
               meta := "m", slug := "s", tags := "t", thumbnail := none } :=
  hydrate_finalize { initialEditorState with editor := some emptyDocument }
    emptyDocument [Node.paragraph [⟨"Hello", []⟩]]
    { title := "Hi", content := getSerializedContent [Node.paragraph [⟨"Hello", []⟩]],
      meta := "m", slug := "s", tags := "t", thumbnail := none } rfl rfl

/-- C7: metadata field updates are isolated: each updater touches only its own
slice of the Post Draft, and after setting the title to X and then the slug to y
both are set while content and thumbnail keep their prior values. -/
theorem updateField_isolation (s : EditorState) (x y : String) (r : SeoResult) :
    ((updateSeoValue (updateTitle s x) { r with slug := y }).post.title = x ∧
     (updateSeoValue (updateTitle s x) { r with slug := y }).post.slug = y ∧
     (updateSeoValue (updateTitle s x) { r with slug := y }).post.content = s.post.content ∧
     (updateSeoValue (updateTitle s x) { r with slug := y }).post.thumbnail = s.post.thumbnail) ∧
    (∀ v, (updateTitle s v).post.content = s.post.content ∧
      (updateTitle s v).post.meta = s.post.meta ∧
      (updateTitle s v).post.slug = s.post.slug ∧
      (updateTitle s v).post.tags = s.post.tags ∧
      (updateTitle s v).post.thumbnail = s.post.thumbnail) ∧
    (∀ res, (updateSeoValue s res).post.title = s.post.title ∧
      (updateSeoValue s res).post.content = s.post.content ∧
      (updateSeoValue s res).post.thumbnail = s.post.thumbnail) ∧
    (∀ f, (updateThumbnail s f).post.title = s.post.title ∧
      (updateThumbnail s f).post.content = s.post.content ∧
      (updateThumbnail s f).post.meta = s.post.meta ∧
      (updateThumbnail s f).post.slug = s.post.slug ∧
      (updateThumbnail s f).post.tags = s.post.tags) :=
  ⟨⟨rfl, rfl, rfl, rfl⟩, fun _ => ⟨rfl, rfl, rfl, rfl, rfl⟩,
   fun _ => ⟨rfl, rfl, rfl⟩, fun _ => ⟨rfl, rfl, rfl, rfl, rfl⟩⟩

/-- C8: a failed gallery fetch surfaces AssetListError while leaving the whole
editor state unchanged (cached or empty asset list, draft, live document), so
the editing session survives and unrelated edits are unaffected. -/
theorem listAssets_failure_nonfatal (s : EditorState) :
    fetchImages s none = (s, some AssetError.listError) := rfl

/-- C9: the code evaluated at the failing input: `handleImageUpload` sets
`uploading` to true before the POST and has no catch or finally, so after a
failed upload the state still has `uploading = true` (stuck), while a
successful upload resets it to false. -/
theorem uploading_stuck_after_failed_upload :
    initialEditorState.uploading = false ∧
    (handleImageUpload initialEditorState none).1.uploading = true ∧
    (handleImageUpload initialEditorState (some { src := "a.png" })).1.uploading = false :=
  ⟨rfl, rfl, rfl⟩

/-- C10: submit is guarded on an initialized engine: with no editor instance,
`handleSubmit` returns without producing a draft, so `onSubmit` is never called
with content that was not backed by a live Document. -/
theorem handleSubmit_requires_editor (s : EditorState) :
    handleSubmit { s with editor := none } = none := rfl

end Blogs
